import Mathlib

set_option maxRecDepth 100000

/-!
Verification of the logmon terminal log viewer core.

This file shallowly embeds the data model and operations of the
repository (src/ui.py, src/tail.py) and proves the spec's testable
properties about them.  Python strings are modelled as Lean `String`
and `List Char`; Python `deque(maxlen=m)` as a list with drop-oldest
push; Python dictionaries (which preserve insertion order) as
association lists with update-in-place / append-at-end semantics.
-/

namespace Logmon

/-- Record of one parsed log line (src/tail.py, `LogLine`). -/
structure LogLine where
  source : String
  timestamp : String
  level : String
  logger_name : String
  message : String
  raw : String
deriving DecidableEq

/-- Current filter state (src/ui.py, `FilterState`). -/
structure FilterState where
  level : Option String
  source : Option String
  search : String
deriving DecidableEq

/-- State of the log display (src/ui.py, `LogDisplay`).  Field names
drop the Python leading underscore. -/
structure LogDisplay where
  max_lines : Nat
  sources_names : List String
  lines : List LogLine
  filters : FilterState
  paused : Bool
  stats : List (String × List (String × Nat))
  scroll_offset : Nat
  cache_valid : Bool
  cached_filtered : List LogLine
  cache_version : Nat
deriving DecidableEq

/-- Display state produced by `LogDisplay.__post_init__`: empty buffer,
no filters, cache invalid. -/
def initDisplay (m : Nat) : LogDisplay :=
  { max_lines := m
    sources_names := []
    lines := []
    filters := { level := none, source := none, search := "" }
    paused := false
    stats := []
    scroll_offset := 0
    cache_valid := false
    cached_filtered := []
    cache_version := 0 }

/-! ## Cell widths (models `rich.cells.cell_len`, an external collaborator)

The spec describes the width function only as "a cell-width function that
counts wide characters (e.g., emoji) as 2 columns".  We model the rich
library's table in abridged form: control characters and combining marks
occupy 0 columns, the main wide/east-asian and emoji ranges occupy 2,
everything else occupies 1. -/

/-- Cell width of a single character. -/
def cellWidth (c : Char) : Nat :=
  let n := c.toNat
  if n < 32 then 0
  else if 127 ≤ n ∧ n ≤ 159 then 0
  else if 0x300 ≤ n ∧ n ≤ 0x36F then 0
  else if (0x1100 ≤ n ∧ n ≤ 0x115F) ∨ (0x2E80 ≤ n ∧ n ≤ 0x303E) ∨
          (0x3041 ≤ n ∧ n ≤ 0x33FF) ∨ (0x3400 ≤ n ∧ n ≤ 0x4DBF) ∨
          (0x4E00 ≤ n ∧ n ≤ 0x9FFF) ∨ (0xA000 ≤ n ∧ n ≤ 0xA4CF) ∨
          (0xAC00 ≤ n ∧ n ≤ 0xD7A3) ∨ (0xF900 ≤ n ∧ n ≤ 0xFAFF) ∨
          (0xFE30 ≤ n ∧ n ≤ 0xFE4F) ∨ (0xFF00 ≤ n ∧ n ≤ 0xFF60) ∨
          (0xFFE0 ≤ n ∧ n ≤ 0xFFE6) ∨ (0x1F300 ≤ n ∧ n ≤ 0x1F64F) ∨
          (0x1F900 ≤ n ∧ n ≤ 0x1F9FF) ∨ (0x20000 ≤ n ∧ n ≤ 0x3FFFD) then 2
  else 1

/-- Visual width of a character sequence (models `cell_len`). -/
def cellsLen (cs : List Char) : Nat := (cs.map cellWidth).sum

/-! ## String helpers mirroring the Python operations used in ui.py -/

/-- Strip trailing newline characters (Python `message.rstrip of newline`). -/
def rstripNl (cs : List Char) : List Char :=
  (cs.reverse.dropWhile (fun c => c = '\n')).reverse

/-- Split on newline characters, keeping empty segments, as Python
`str.split` with an explicit separator does; the empty string yields one
empty segment. -/
def splitNl : List Char → List (List Char)
  | [] => [[]]
  | c :: cs =>
    match splitNl cs with
    | [] => [[c]]
    | s :: rest => if c = '\n' then [] :: s :: rest else (c :: s) :: rest

/-- Join segments with newline characters (Python `join`). -/
def joinNl : List (List Char) → List Char
  | [] => []
  | [p] => p
  | p :: q :: rest => p ++ '\n' :: joinNl (q :: rest)

/-- Trim loop with explicit fuel; each iteration drops the last
character, so `cs.length` steps always suffice. -/
def trimSteps (maxw : Nat) : Nat → List Char → List Char
  | 0, cs => cs
  | fuel + 1, cs =>
    if cs ≠ [] ∧ maxw < cellsLen cs then trimSteps maxw fuel cs.dropLast
    else cs

/-- Trim characters from the right until the visual width fits
(the `while cell_len(msg) > max_visual_width and len(msg) > 0` loop in
`_calc_visual_lines` and `render_logs`). -/
def trimToWidth (maxw : Nat) (cs : List Char) : List Char :=
  trimSteps maxw cs.length cs

/-- Character-wise uppercase (Python `str.upper`). -/
def upperStr (s : String) : String := String.mk (s.data.map Char.toUpper)

/-- Character-wise lowercase (Python `str.lower`). -/
def lowerStr (s : String) : String := String.mk (s.data.map Char.toLower)

/-- Boolean substring test (Python `needle in hay` on strings). -/
def containsSub (needle : List Char) : List Char → Bool
  | [] => needle.isEmpty
  | c :: t => needle.isPrefixOf (c :: t) || containsSub needle t

/-! ## Visual layout engine (src/ui.py, `_calc_visual_lines`) -/

/-- Rows contributed by one message segment of visual length `len` at a
given width: an empty segment still takes one row, otherwise the wrapped
row count. -/
def partRows (w len : Nat) : Nat :=
  if len = 0 then 1 else max 1 ((len + w - 1) / w)

/-- Accumulation loop of `_calc_visual_lines`: add each segment's rows,
returning the cap as soon as the running total reaches it, else clamp
the final total to the interval from 1 to the cap. -/
def accRows (w maxL : Nat) : List Nat → Nat → Nat
  | [], total => max 1 (min total maxL)
  | len :: rest, total =>
    let t := total + partRows w len
    if maxL ≤ t then maxL else accRows w maxL rest t

/-- Number of visual rows a record occupies (src/ui.py,
`_calc_visual_lines`). -/
def calcVisualLines (line : LogLine) (available_width max_lines : Nat) : Nat :=
  let prefix_len :=
    23 + (if line.logger_name.length = 0 then 0
          else min line.logger_name.length 15 + 2)
  let msg0 := rstripNl line.message.data
  let maxw := available_width * max_lines
  let msg1 := if maxw < msg0.length then msg0.take maxw else msg0
  let msg2 := trimToWidth maxw msg1
  let parts := (splitNl msg2).take max_lines
  let lens :=
    match parts with
    | [] => []
    | p :: rest => (prefix_len + cellsLen p) :: rest.map cellsLen
  accRows available_width max_lines lens 0

/-- Message string produced for one record by the content-rendering pass
(src/ui.py, `render_logs`, message truncation with ellipsis). -/
def renderMsg (line : LogLine) (available_width : Nat) : String :=
  let base := rstripNl line.message.data
  let maxw := available_width * 5
  let msg1 := if maxw < base.length then base.take maxw else base
  let msg2 := trimToWidth maxw msg1
  let msg3 := if msg2.length < base.length then msg2 ++ ('.' :: '.' :: '.' :: []) else msg2
  let parts := splitNl msg3
  let msg4 := if 5 < parts.length then joinNl (parts.take 5) ++ ('.' :: '.' :: '.' :: []) else msg3
  String.mk msg4

/-! ## Bounded buffer and stats (src/ui.py, `add_line`, `clear`, setters) -/

/-- Append with drop-oldest eviction, the behaviour of a Python
`deque(maxlen=m)` on `append`. -/
def pushMax (m : Nat) (xs : List α) (x : α) : List α :=
  let ys := xs ++ [x]
  ys.drop (ys.length - m)

/-- Last `m` elements of a list in order. -/
def takeLast (m : Nat) (l : List α) : List α := l.drop (l.length - m)

/-- Increment the counter for `lvl` in a per-source level map; a missing
key is inserted at the end, as a Python dict does. -/
def bumpInner (lvl : String) : List (String × Nat) → List (String × Nat)
  | [] => [(lvl, 1)]
  | (k, v) :: rest =>
    if k = lvl then (k, v + 1) :: rest else (k, v) :: bumpInner lvl rest

/-- Increment `stats[src][lvl]` (the stats update in `add_line`). -/
def bumpStats (src lvl : String) :
    List (String × List (String × Nat)) → List (String × List (String × Nat))
  | [] => [(src, [(lvl, 1)])]
  | (k, inner) :: rest =>
    if k = src then (k, bumpInner lvl inner) :: rest
    else (k, inner) :: bumpStats src lvl rest

/-- Count stored for `lvl` in a per-source level map, 0 if absent. -/
def getCount (lvl : String) : List (String × Nat) → Nat
  | [] => 0
  | (k, v) :: rest => if k = lvl then v else getCount lvl rest

/-- Count stored in `stats[src][lvl]`, 0 if absent. -/
def statsGet (src lvl : String) : List (String × List (String × Nat)) → Nat
  | [] => 0
  | (k, inner) :: rest => if k = src then getCount lvl inner else statsGet src lvl rest

/-- Sum of all counters in the stats map. -/
def statsTotal (m : List (String × List (String × Nat))) : Nat :=
  (m.map (fun p => (p.2.map Prod.snd).sum)).sum

/-- Add a new log line (src/ui.py, `add_line`): when paused the record is
discarded; otherwise it is appended with drop-oldest eviction, the cache
is invalidated, and the stats counter for the record's source and
upper-cased level is incremented. -/
def add_line (st : LogDisplay) (l : LogLine) : LogDisplay :=
  if st.paused then st
  else
    { st with
      lines := pushMax st.max_lines st.lines l
      cache_valid := false
      cache_version := st.cache_version + 1
      stats := bumpStats l.source (upperStr l.level) st.stats }

/-- Clear all logs and stats (src/ui.py, `clear`). -/
def clearAll (st : LogDisplay) : LogDisplay :=
  { st with
    lines := []
    stats := []
    cache_valid := false
    cache_version := st.cache_version + 1
    cached_filtered := [] }

/-- Set the level filter and invalidate the cache (src/ui.py,
`set_level_filter`). -/
def set_level_filter (st : LogDisplay) (lv : Option String) : LogDisplay :=
  { st with
    filters := { st.filters with level := lv }
    cache_valid := false
    cache_version := st.cache_version + 1 }

/-- Set the source filter and invalidate the cache (src/ui.py,
`set_source_filter`). -/
def set_source_filter (st : LogDisplay) (s : Option String) : LogDisplay :=
  { st with
    filters := { st.filters with source := s }
    cache_valid := false
    cache_version := st.cache_version + 1 }

/-- Scroll up towards older logs (src/ui.py, `scroll_up`). -/
def scroll_up (st : LogDisplay) (n : Nat) : LogDisplay :=
  { st with scroll_offset := st.scroll_offset + n }

/-- Scroll down towards newer logs (src/ui.py, `scroll_down`); Python
`max(0, offset - n)` is truncated subtraction on `Nat`. -/
def scroll_down (st : LogDisplay) (n : Nat) : LogDisplay :=
  { st with scroll_offset := st.scroll_offset - n }

/-- Jump to the latest logs (src/ui.py, `scroll_to_bottom`). -/
def scroll_to_bottom (st : LogDisplay) : LogDisplay :=
  { st with scroll_offset := 0 }

/-- Toggle the pause state (src/ui.py, `toggle_pause`). -/
def toggle_pause (st : LogDisplay) : LogDisplay :=
  { st with paused := !st.paused }

/-! ## Filter engine and view cache (src/ui.py, `_rebuild_cache`) -/

/-- Python truthiness of an optional string: `None` and the empty string
are falsy. -/
def truthyOpt : Option String → Bool
  | none => false
  | some s => !(s = "")

/-- Whether a record passes all three filters, exactly as the skip
conditions of `_rebuild_cache` decide it. -/
def matchesFilters (f : FilterState) (l : LogLine) : Bool :=
  (!truthyOpt f.level || upperStr l.level == upperStr (f.level.getD "")) &&
  (!truthyOpt f.source || l.source == f.source.getD "") &&
  (f.search == "" || containsSub (lowerStr f.search).data (lowerStr l.raw).data)

/-- Filtered subsequence of a buffer (the list built by
`_rebuild_cache`). -/
def rebuildFilter (f : FilterState) (lines : List LogLine) : List LogLine :=
  lines.filter (matchesFilters f)

/-- Record sequence a view read observes: the cached list when the cache
is valid, otherwise the result of rebuilding from the current buffer and
filters (the cache-check-then-rebuild prelude shared by
`get_filtered_lines_by_visual` and `get_total_visual_lines`). -/
def getViewSeq (st : LogDisplay) : List LogLine :=
  if st.cache_valid then st.cached_filtered else rebuildFilter st.filters st.lines

/-- Snapshot taken by `_rebuild_cache` before it recomputes (line 99 of
src/ui.py, outside the lock): the filtered view of the buffer as it is
at snapshot time. -/
def rebuildSnapshot (st : LogDisplay) : List LogLine :=
  rebuildFilter st.filters st.lines

/-- Commit step of `_rebuild_cache` (lines 113-115 of src/ui.py): store
the snapshot result and mark the cache valid unconditionally; the
version counter is not consulted. -/
def rebuildCommit (st : LogDisplay) (snap : List LogLine) : LogDisplay :=
  { st with cached_filtered := snap, cache_valid := true }

/-! ## Window selection (src/ui.py, `get_filtered_lines_by_visual`) -/

/-- Walk a newest-first row-count list accumulating counts; return the
position at which the accumulated total first reaches `off` (the
anchor-search loop for a nonzero scroll offset). -/
def endFromRev : List Nat → Nat → Option Nat
  | [], _ => none
  | c :: rest, off =>
    if off ≤ c then some 0
    else
      match endFromRev rest (off - c) with
      | some j => some (j + 1)
      | none => none

/-- Number of newest entries skipped by the anchor search: 0 in live
mode; otherwise the anchor position, or 0 when the accumulated total
never reaches the offset (the Python loop then leaves the end index at
the last entry). -/
def anchorSkip (revCounts : List Nat) (offset : Nat) : Nat :=
  if offset = 0 then 0 else (endFromRev revCounts offset).getD 0

/-- Collect newest-first (record, rows) pairs while each entry still fits
completely in the remaining budget; the first entry that would overflow
stops the collection. -/
def takeFitP : List (LogLine × Nat) → Nat → List (LogLine × Nat)
  | [], _ => []
  | p :: rest, budget =>
    if p.2 ≤ budget then p :: takeFitP rest (budget - p.2) else []

/-- Pair every filtered record with its visual row count (the
`visual_counts` table). -/
def rowPairs (w : Nat) (filtered : List LogLine) : List (LogLine × Nat) :=
  filtered.map (fun l => (l, calcVisualLines l w 5))

/-- Select the window of records to display from a filtered view, an
offset, a viewport height and width (the core of
`get_filtered_lines_by_visual` after the cache snapshot). -/
def selectWindow (filtered : List LogLine) (offset H w : Nat) : List LogLine :=
  if filtered.isEmpty then []
  else
    let revPairs := (rowPairs w filtered).reverse
    let j := anchorSkip (revPairs.map Prod.snd) offset
    ((takeFitP (revPairs.drop j) H).map Prod.fst).reverse

/-- Filtered lines selected for display (src/ui.py,
`get_filtered_lines_by_visual`). -/
def get_filtered_lines_by_visual (st : LogDisplay) (H w : Nat) : List LogLine :=
  selectWindow (getViewSeq st) st.scroll_offset H w

/-- Sum of visual row counts over a record list at a given width. -/
def sumRows (w : Nat) (ls : List LogLine) : Nat :=
  (ls.map (fun l => calcVisualLines l w 5)).sum

/-- Total visual lines across the filtered view (src/ui.py,
`get_total_visual_lines`). -/
def get_total_visual_lines (st : LogDisplay) (w : Nat) : Nat :=
  sumRows w (getViewSeq st)

/-- Newest-first sequence of records from the anchor backwards — the
candidates the window-selection loop walks (entries at indices from the
end index down to 0 of the filtered view). -/
def anchoredRev (st : LogDisplay) (w : Nat) : List LogLine :=
  let revPairs := (rowPairs w (getViewSeq st)).reverse
  (revPairs.drop (anchorSkip (revPairs.map Prod.snd) st.scroll_offset)).map Prod.fst

/-! ## Ingestion channel (src/tail.py, `_subscribe_loop`, `get_new_lines`)

The channel is a Python `Queue(maxsize=capacity)`; `full()` is true only
for a positive `maxsize` that the current size has reached. -/

/-- Whether the queue reports full (Python `Queue.full`). -/
def queueFull (maxsize : Nat) (q : List LogLine) : Bool :=
  0 < maxsize && maxsize ≤ q.length

/-- Producer-side push (src/tail.py, lines 102-108): when the queue is
full, discard the single oldest queued record, then enqueue the new one.
The operation is a total function — it never blocks. -/
def chanPush (maxsize : Nat) (q : List LogLine) (l : LogLine) : List LogLine :=
  let q' := if queueFull maxsize q then q.drop 1 else q
  q' ++ [l]

/-- Consumer-side drain (src/tail.py, `get_new_lines`): return every
queued record in arrival order and leave the queue empty; never
blocks. -/
def get_new_lines (q : List LogLine) : List LogLine × List LogLine :=
  (q, [])

/-- Mutating operations of the display, used to state stats monotonicity
over every operation other than clear. -/
inductive DisplayOp where
  | addRec (l : LogLine)
  | clearOp
  | setLevel (lv : Option String)
  | setSource (s : Option String)
  | scrollUpBy (n : Nat)
  | scrollDownBy (n : Nat)
  | toBottom
  | togglePauseOp
deriving DecidableEq

/-- Apply a display operation to a state. -/
def applyOp : DisplayOp → LogDisplay → LogDisplay
  | .addRec l, st => add_line st l
  | .clearOp, st => clearAll st
  | .setLevel lv, st => set_level_filter st lv
  | .setSource s, st => set_source_filter st s
  | .scrollUpBy n, st => scroll_up st n
  | .scrollDownBy n, st => scroll_down st n
  | .toBottom, st => scroll_to_bottom st
  | .togglePauseOp, st => toggle_pause st

/-! ## Spec-side predicates and auxiliary definitions for the claims -/

/-- Level predicate of the spec: when a non-empty level filter is set,
the record's level must equal it case-insensitively (in Python an unset
filter is `None` or the empty string, both falsy). -/
def levelOK (f : FilterState) (l : LogLine) : Prop :=
  match f.level with
  | none => True
  | some lv => lv = "" ∨ upperStr l.level = upperStr lv

/-- Source predicate of the spec: when a non-empty source filter is set,
the record's source must equal it exactly. -/
def sourceOK (f : FilterState) (l : LogLine) : Prop :=
  match f.source with
  | none => True
  | some s => s = "" ∨ l.source = s

/-- Search predicate of the spec: a non-empty search text must occur as a
case-insensitive substring of the record's raw form. -/
def searchOK (f : FilterState) (l : LogLine) : Prop :=
  f.search = "" ∨ (lowerStr f.search).data <:+: (lowerStr l.raw).data

instance (f : FilterState) (l : LogLine) : Decidable (levelOK f l) := by
  unfold levelOK
  cases f.level <;> infer_instance

instance (f : FilterState) (l : LogLine) : Decidable (sourceOK f l) := by
  unfold sourceOK
  cases f.source <;> infer_instance

instance (f : FilterState) (l : LogLine) : Decidable (searchOK f l) := by
  unfold searchOK
  infer_instance

/-- Reachable-state cache invariant: whenever the cache is marked valid
its contents are the filtered view of the current buffer.  It holds of
the initial state (the cache starts invalid) and every mutator either
re-establishes it or invalidates the cache. -/
def CacheOK (st : LogDisplay) : Prop :=
  st.cache_valid = true → st.cached_filtered = rebuildFilter st.filters st.lines

instance (st : LogDisplay) : Decidable (CacheOK st) := by
  unfold CacheOK
  infer_instance

/-- Sum of the row counts stored in a (record, rows) pair list. -/
def sumSnd (ps : List (LogLine × Nat)) : Nat := (ps.map Prod.snd).sum

/-! ## Concrete records and states for the scenario claims -/

/-- Record with the given source and message, an empty logger name, and
level INFO. -/
def mkRec (src msg : String) : LogLine :=
  { source := src, timestamp := "", level := "INFO", logger_name := ""
    message := msg, raw := msg }

/-- Message of 100 repeated characters: together with the 23-column
prefix it occupies 4 visual rows at width 40. -/
def msg100 : String := String.mk (List.replicate 100 'a')

/-- Message of exactly 500 characters, the boundary of scenario C. -/
def msg500 : String := String.mk (List.replicate 500 'a')

/-- Message of 501 characters, one past the truncation boundary. -/
def msg501 : String := String.mk (List.replicate 501 'a')

/-- Scenario C record with a 500-character message. -/
def recC500 : LogLine := mkRec "s" msg500

/-- Record with a 501-character message. -/
def recC501 : LogLine := mkRec "s" msg501

/-- Scenario D records, oldest to newest. -/
def recD1 : LogLine := mkRec "s1" msg100
/-- Scenario D middle record. -/
def recD2 : LogLine := mkRec "s2" msg100
/-- Scenario D newest record. -/
def recD3 : LogLine := mkRec "s3" msg100

/-- Scenario D state: three records whose rows-per-record at width 40 are
4, 4, 4, no filters, live mode. -/
def scenD : LogDisplay :=
  { initDisplay 1000 with lines := [recD1, recD2, recD3] }

/-- Scenario A records R1..R5. -/
def recR (i : Nat) : LogLine := mkRec "s" (String.mk (List.replicate i 'm'))

/-- Scenario A state: capacity 3, records R1..R5 added in order. -/
def scenA : LogDisplay :=
  [recR 1, recR 2, recR 3, recR 4, recR 5].foldl add_line (initDisplay 3)

/-- Record already in the buffer when the racing rebuild of claim C10
takes its snapshot. -/
def recX : LogLine := mkRec "sx" "before"

/-- Record whose arrival invalidates the cache mid-rebuild in C10. -/
def recY : LogLine := mkRec "sy" "after"

/-- Initial state for the C10 interleaving: one buffered record, cache
invalid. -/
def st10 : LogDisplay := { initDisplay 1000 with lines := [recX] }

/-- Filter state used by witnesses: level INFO, no source filter, search
text "m". -/
def fW : FilterState := { level := some "INFO", source := none, search := "m" }

/-! ## Layout bounds (claim C4) -/

/-- Upper bound of the accumulation loop: the result never exceeds the
cap. -/
theorem accRows_le (w maxL : Nat) (hm : 1 ≤ maxL) :
    ∀ (lens : List Nat) (total : Nat), accRows w maxL lens total ≤ maxL := by
  intro lens
  induction lens with
  | nil =>
    intro total
    simp only [accRows]
    omega
  | cons len rest ih =>
    intro total
    simp only [accRows]
    split
    · exact Nat.le_refl maxL
    · exact ih _

/-- Lower bound of the accumulation loop: the result is at least 1. -/
theorem accRows_ge (w maxL : Nat) (hm : 1 ≤ maxL) :
    ∀ (lens : List Nat) (total : Nat), 1 ≤ accRows w maxL lens total := by
  intro lens
  induction lens with
  | nil =>
    intro total
    simp only [accRows]
    omega
  | cons len rest ih =>
    intro total
    simp only [accRows]
    split
    · exact hm
    · exact ih _

/-- Claim C4. For every record — arbitrarily long message, any number of
embedded newlines, any logger name — and every viewport width at least
1, the visual layout function `calcVisualLines` (the code's
`_calc_visual_lines` with its cap of 5 rows per record) returns a value
in the range from 1 to 5. -/
theorem rows_for_bounded (l : LogLine) (w : Nat) (hw : 1 ≤ w) :
    1 ≤ calcVisualLines l w 5 ∧ calcVisualLines l w 5 ≤ 5 := by
  unfold calcVisualLines
  exact ⟨accRows_ge w 5 (by omega) _ _, accRows_le w 5 (by omega) _ _⟩

/-- Witness for C4: the bounds hold at a concrete record, width 40. -/
theorem rows_for_bounded_witness :
    1 ≤ calcVisualLines recD1 40 5 ∧ calcVisualLines recD1 40 5 ≤ 5 :=
  rows_for_bounded recD1 40 (by decide)

/-! ## Buffer capacity (claim C2) -/

/-- Pushing onto a capped buffer is taking the last `m` elements of the
extended list. -/
theorem pushMax_eq_takeLast (m : Nat) (xs : List α) (x : α) :
    pushMax m xs x = takeLast m (xs ++ [x]) := rfl

/-- Re-capping after appending one element ignores an earlier cap. -/
theorem takeLast_append_one (m : Nat) (l : List α) (x : α) :
    takeLast m (takeLast m l ++ [x]) = takeLast m (l ++ [x]) := by
  unfold takeLast
  rw [List.drop_append_eq_append_drop, List.drop_append_eq_append_drop,
    List.drop_drop]
  congr 1
  · congr 1
    simp only [List.length_append, List.length_drop, List.length_cons,
      List.length_nil]
    omega
  · congr 1
    simp only [List.length_append, List.length_drop, List.length_cons,
      List.length_nil]
    omega

/-- Folding capped pushes over arriving records keeps exactly the last
`m` of everything seen. -/
theorem foldl_pushMax (m : Nat) :
    ∀ (rs l : List α), rs.foldl (pushMax m) (takeLast m l) = takeLast m (l ++ rs) := by
  intro rs
  induction rs with
  | nil => intro l; simp
  | cons r rs ih =>
    intro l
    have step : pushMax m (takeLast m l) r = takeLast m (l ++ [r]) := by
      rw [pushMax_eq_takeLast, takeLast_append_one]
    calc (r :: rs).foldl (pushMax m) (takeLast m l)
        = rs.foldl (pushMax m) (takeLast m (l ++ [r])) := by
          simp only [List.foldl_cons, step]
      _ = takeLast m ((l ++ [r]) ++ rs) := ih (l ++ [r])
      _ = takeLast m (l ++ r :: rs) := by simp

/-- Folding capped pushes from the empty buffer keeps the last `m`
arrivals. -/
theorem foldl_pushMax_nil (m : Nat) (rs : List α) :
    rs.foldl (pushMax m) [] = takeLast m rs := by
  have h0 : takeLast m ([] : List α) = [] := by unfold takeLast; simp
  have := foldl_pushMax m rs ([] : List α)
  rw [h0] at this
  simpa using this

/-- Accepted `add_line` calls thread the buffer through `pushMax` and
preserve the pause flag and capacity. -/
theorem add_line_not_paused (st : LogDisplay) (r : LogLine) (h : st.paused = false) :
    (add_line st r).lines = pushMax st.max_lines st.lines r
  ∧ (add_line st r).paused = false
  ∧ (add_line st r).max_lines = st.max_lines := by
  simp [add_line, h]

/-- Folding `add_line` over a record list acts on the buffer exactly as
folding `pushMax` does, for an unpaused display. -/
theorem foldl_add_line_lines (m : Nat) :
    ∀ (rs : List LogLine) (st : LogDisplay), st.paused = false → st.max_lines = m →
      (rs.foldl add_line st).lines = rs.foldl (pushMax m) st.lines := by
  intro rs
  induction rs with
  | nil => intro st _ _; rfl
  | cons r rs ih =>
    intro st hp hm
    obtain ⟨h1, h2, h3⟩ := add_line_not_paused st r hp
    simp only [List.foldl_cons]
    rw [ih (add_line st r) h2 (by omega), h1, hm]

/-- Claim C2. For every sequence of `add_line` calls with pause off, the
history buffer never exceeds `maxLines` records: after any sequence of
adds from the initial state the buffer holds exactly the most recent
`maxLines` accepted records in arrival order (all of them while fewer
arrived), and each insertion at capacity evicts exactly the single
oldest record. -/
theorem buffer_capacity_invariant :
    (∀ (m : Nat) (rs : List LogLine),
        (rs.foldl add_line (initDisplay m)).lines = takeLast m rs
      ∧ (rs.foldl add_line (initDisplay m)).lines.length ≤ m)
  ∧ (∀ (st : LogDisplay) (r : LogLine), st.paused = false → 1 ≤ st.max_lines →
      st.lines.length = st.max_lines →
      (add_line st r).lines = st.lines.drop 1 ++ [r]) := by
  constructor
  · intro m rs
    have hlines : (rs.foldl add_line (initDisplay m)).lines = takeLast m rs := by
      rw [foldl_add_line_lines m rs (initDisplay m) rfl rfl]
      exact foldl_pushMax_nil m rs
    refine ⟨hlines, ?_⟩
    rw [hlines]
    unfold takeLast
    simp only [List.length_drop]
    omega
  · intro st r hp hm hlen
    obtain ⟨h1, _, _⟩ := add_line_not_paused st r hp
    rw [h1]
    unfold pushMax
    rw [List.drop_append_eq_append_drop]
    congr 1
    · congr 1
      simp only [List.length_append, List.length_cons, List.length_nil]
      omega
    · simp only [List.length_append, List.length_cons, List.length_nil]
      have : (st.lines.length + 1 - st.max_lines) - st.lines.length = 0 := by omega
      rw [this]
      rfl

/-- Witness for C2: capacity 2, three records; the buffer keeps the last
two, and an insertion at capacity evicts the single oldest. -/
theorem buffer_capacity_invariant_witness :
    ([recR 1, recR 2, recR 3].foldl add_line (initDisplay 2)).lines = takeLast 2 [recR 1, recR 2, recR 3]
  ∧ (add_line { initDisplay 2 with lines := [recR 1, recR 2] } (recR 3)).lines
      = [recR 1, recR 2].drop 1 ++ [recR 3] :=
  ⟨(buffer_capacity_invariant.1 2 [recR 1, recR 2, recR 3]).1,
   buffer_capacity_invariant.2 { initDisplay 2 with lines := [recR 1, recR 2] } (recR 3)
     (by decide) (by decide) (by decide)⟩

/-! ## Ingestion channel drop-oldest (claim C6) -/

/-- Below or at a positive capacity, the channel push is exactly the
capped push. -/
theorem chanPush_eq_pushMax (c : Nat) (q : List LogLine) (x : LogLine)
    (hc : 1 ≤ c) (hq : q.length ≤ c) :
    chanPush c q x = pushMax c q x := by
  by_cases hfull : c ≤ q.length
  · have hb : queueFull c q = true := by
      simp only [queueFull, Bool.and_eq_true, decide_eq_true_eq]
      exact ⟨by omega, hfull⟩
    simp only [chanPush, pushMax, hb, if_true]
    rw [List.drop_append_eq_append_drop]
    simp only [List.length_append, List.length_cons, List.length_nil]
    congr 1
    · congr 1
      omega
    · rw [show q.length + 1 - c - q.length = 0 from by omega]
      rfl
  · have hb : queueFull c q = false := by
      simp only [queueFull, Bool.and_eq_false_iff, decide_eq_false_iff_not]
      right
      omega
    simp only [chanPush, pushMax, hb, Bool.false_eq_true, if_false]
    simp only [List.length_append, List.length_cons, List.length_nil]
    rw [show q.length + 1 - c = 0 from by omega]
    rfl

/-- Capped push keeps the queue within capacity. -/
theorem pushMax_length_le (m : Nat) (xs : List α) (x : α) (h : xs.length ≤ m) :
    (pushMax m xs x).length ≤ m := by
  unfold pushMax
  simp only [List.length_drop, List.length_append, List.length_cons,
    List.length_nil]
  omega

/-- Folding channel pushes from within capacity agrees with folding
capped pushes. -/
theorem foldl_chanPush (c : Nat) (hc : 1 ≤ c) :
    ∀ (rs q : List LogLine), q.length ≤ c →
      rs.foldl (chanPush c) q = rs.foldl (pushMax c) q := by
  intro rs
  induction rs with
  | nil => intro q _; rfl
  | cons r rs ih =>
    intro q hq
    simp only [List.foldl_cons]
    rw [chanPush_eq_pushMax c q r hc hq]
    exact ih (pushMax c q r) (pushMax_length_le c q r hq)

/-- Claim C6. For every positive capacity `c` and every `k ≥ 1`, pushing
`c + k` records into the empty ingestion channel without draining leaves
exactly `c` records queued — the `k`-th through last pushed records in
arrival order — and each push onto a full channel discards the single
oldest queued record before enqueueing the new one.  The push itself is
a total function: it never blocks the producer. -/
theorem channel_drop_oldest :
    (∀ (c k : Nat) (rs : List LogLine), 1 ≤ c → 1 ≤ k → rs.length = c + k →
        rs.foldl (chanPush c) [] = rs.drop k
      ∧ (rs.foldl (chanPush c) []).length = c)
  ∧ (∀ (c : Nat) (q : List LogLine) (x : LogLine), 1 ≤ c → q.length = c →
      chanPush c q x = q.drop 1 ++ [x]) := by
  constructor
  · intro c k rs hc hk hlen
    have hfold : rs.foldl (chanPush c) [] = takeLast c rs := by
      rw [foldl_chanPush c hc rs [] (by simp)]
      exact foldl_pushMax_nil c rs
    have hdrop : takeLast c rs = rs.drop k := by
      unfold takeLast
      congr 1
      omega
    refine ⟨by rw [hfold, hdrop], ?_⟩
    rw [hfold, hdrop]
    simp only [List.length_drop]
    omega
  · intro c q x hc hq
    rw [chanPush_eq_pushMax c q x hc (by omega)]
    unfold pushMax
    rw [List.drop_append_eq_append_drop]
    simp only [List.length_append, List.length_cons, List.length_nil]
    congr 1
    · congr 1
      omega
    · rw [show q.length + 1 - c - q.length = 0 by omega]
      rfl

/-- Witness for C6: capacity 2, pushing 3 records leaves the last two,
and a push at capacity drops the single oldest. -/
theorem channel_drop_oldest_witness :
    [recR 1, recR 2, recR 3].foldl (chanPush 2) [] = [recR 1, recR 2, recR 3].drop 1
  ∧ chanPush 2 [recR 1, recR 2] (recR 3) = [recR 1, recR 2].drop 1 ++ [recR 3] :=
  ⟨(channel_drop_oldest.1 2 1 [recR 1, recR 2, recR 3] (by decide) (by decide) (by decide)).1,
   channel_drop_oldest.2 2 [recR 1, recR 2] (recR 3) (by decide) (by decide)⟩

/-! ## Filter correctness (claim C3) -/

/-- Boolean substring test agrees with list-infix. -/
theorem containsSub_iff (n : List Char) :
    ∀ h : List Char, containsSub n h = true ↔ n <:+: h := by
  intro h
  induction h with
  | nil =>
    simp only [containsSub, List.isEmpty_iff, List.infix_nil]
  | cons c t ih =>
    simp only [containsSub, Bool.or_eq_true, List.isPrefixOf_iff_prefix, ih,
      List.infix_cons_iff]

/-- Membership in the rebuilt filter cache is equivalent to the
conjunction of the three spec predicates. -/
theorem matchesFilters_iff (f : FilterState) (l : LogLine) :
    matchesFilters f l = true ↔ levelOK f l ∧ sourceOK f l ∧ searchOK f l := by
  unfold matchesFilters levelOK sourceOK searchOK truthyOpt
  cases hl : f.level with
  | none =>
    cases hs : f.source with
    | none =>
      by_cases hq : f.search = "" <;>
        simp [hq, containsSub_iff]
    | some s =>
      by_cases hse : s = "" <;> by_cases hq : f.search = "" <;>
        simp [hse, hq, containsSub_iff, beq_iff_eq]
  | some lv =>
    cases hs : f.source with
    | none =>
      by_cases hle : lv = "" <;> by_cases hq : f.search = "" <;>
        simp [hle, hq, containsSub_iff, beq_iff_eq]
    | some s =>
      by_cases hle : lv = "" <;> by_cases hse : s = "" <;> by_cases hq : f.search = "" <;>
        simp [hle, hse, hq, containsSub_iff, beq_iff_eq, and_assoc]

/-- Claim C3. For every filter state and buffer, the rebuilt filtered view is a
sublist of the buffer (the matching records in their original relative
order), and a record is in the view exactly when it is in the buffer and
satisfies all three predicates: level equal case-insensitively to a set
(non-empty) level filter, source exactly equal to a set source filter,
and a non-empty search text occurring as a case-insensitive substring of
the record's raw form — no false inclusion, no omission. -/
theorem filter_correctness (f : FilterState) (lines : List LogLine) :
    (rebuildFilter f lines).Sublist lines
  ∧ ∀ l : LogLine, l ∈ rebuildFilter f lines ↔
      l ∈ lines ∧ levelOK f l ∧ sourceOK f l ∧ searchOK f l := by
  constructor
  · exact List.filter_sublist lines
  · intro l
    rw [rebuildFilter, List.mem_filter, matchesFilters_iff]

/-- Witness for C3: with a level filter INFO and search text "m", the
record is retained because it is in the buffer and satisfies the three
predicates. -/
theorem filter_correctness_witness :
    recR 1 ∈ rebuildFilter fW [recR 1] :=
  ((filter_correctness fW [recR 1]).2 (recR 1)).mpr
    ⟨by decide, by decide, by decide, by decide⟩

/-! ## No-overflow window selection (claim C1) -/

/-- The collected row counts never exceed the budget. -/
theorem takeFitP_sumSnd : ∀ (ps : List (LogLine × Nat)) (b : Nat),
    sumSnd (takeFitP ps b) ≤ b := by
  intro ps
  induction ps with
  | nil => intro b; simp [takeFitP, sumSnd]
  | cons p rest ih =>
    intro b
    simp only [takeFitP]
    split
    · have := ih (b - p.2)
      simp only [sumSnd, List.map_cons, List.sum_cons] at this ⊢
      omega
    · simp [sumSnd]

/-- The collection is a prefix of the candidates: entries are taken
contiguously from the newest side and the first overflow stops
everything after it. -/
theorem takeFitP_pre : ∀ (ps : List (LogLine × Nat)) (b : Nat),
    takeFitP ps b <+: ps := by
  intro ps
  induction ps with
  | nil => intro b; simp [takeFitP]
  | cons p rest ih =>
    intro b
    simp only [takeFitP]
    split
    · exact List.cons_prefix_cons.mpr ⟨rfl, ih _⟩
    · exact List.nil_prefix

/-- Greedy maximality: any contiguous run from the newest side whose
rows fit the budget is no longer than the collected one. -/
theorem takeFitP_max : ∀ (ps q : List (LogLine × Nat)) (b : Nat),
    q <+: ps → sumSnd q ≤ b → q.length ≤ (takeFitP ps b).length := by
  intro ps
  induction ps with
  | nil =>
    intro q b hq _
    rw [List.prefix_nil.mp hq]
    exact Nat.le_refl 0
  | cons p rest ih =>
    intro q b hq hs
    cases q with
    | nil => exact Nat.zero_le _
    | cons x q =>
      obtain ⟨hx, hq2⟩ := List.cons_prefix_cons.mp hq
      subst hx
      simp only [sumSnd, List.map_cons, List.sum_cons] at hs
      have hp2 : x.2 ≤ b := by omega
      simp only [takeFitP, if_pos hp2, List.length_cons]
      have hrest : sumSnd q ≤ b - x.2 := by
        simp only [sumSnd]
        omega
      exact Nat.succ_le_succ (ih q (b - x.2) hq2 hrest)

/-- Summing the layout rows over the first components recovers the
stored counts when every pair stores its record's row count. -/
theorem sumRows_map_fst (w : Nat) :
    ∀ ps : List (LogLine × Nat), (∀ p ∈ ps, p.2 = calcVisualLines p.1 w 5) →
      sumRows w (ps.map Prod.fst) = sumSnd ps := by
  intro ps
  induction ps with
  | nil => intro _; rfl
  | cons p rest ih =>
    intro h
    simp only [sumRows, sumSnd, List.map_cons, List.sum_cons] at ih ⊢
    rw [← h p (List.mem_cons_self p rest), ih (fun q hq => h q (List.mem_cons_of_mem p hq))]

/-- Every pair in the row-count table stores its record's row count. -/
theorem rowPairs_mem (w : Nat) (filtered : List LogLine) :
    ∀ p ∈ rowPairs w filtered, p.2 = calcVisualLines p.1 w 5 := by
  intro p hp
  unfold rowPairs at hp
  obtain ⟨l, _, rfl⟩ := List.mem_map.mp hp
  rfl

/-- A prefix of the projected list is the projection of a prefix. -/
theorem pre_of_map_fst :
    ∀ (ps : List (LogLine × Nat)) (q : List LogLine), q <+: ps.map Prod.fst →
      ∃ ts, ts <+: ps ∧ ts.map Prod.fst = q := by
  intro ps
  induction ps with
  | nil =>
    intro q hq
    rw [List.map_nil, List.prefix_nil] at hq
    exact ⟨[], List.nil_prefix, by rw [hq]; rfl⟩
  | cons p rest ih =>
    intro q hq
    cases q with
    | nil => exact ⟨[], List.nil_prefix, rfl⟩
    | cons x q =>
      rw [List.map_cons] at hq
      obtain ⟨hx, hq2⟩ := List.cons_prefix_cons.mp hq
      obtain ⟨ts, h1, h2⟩ := ih q hq2
      exact ⟨p :: ts, List.cons_prefix_cons.mpr ⟨rfl, h1⟩, by simp [h2, hx]⟩

/-- Mapping preserves the prefix relation. -/
theorem map_pre (f : LogLine × Nat → LogLine) {l₁ l₂ : List (LogLine × Nat)}
    (h : l₁ <+: l₂) : l₁.map f <+: l₂.map f := by
  obtain ⟨t, rfl⟩ := h
  exact ⟨t.map f, by rw [List.map_append]⟩

/-- Window selection in closed form: the empty-view early return
coincides with the general path. -/
theorem selectWindow_eq (filtered : List LogLine) (offset H w : Nat) :
    selectWindow filtered offset H w =
      ((takeFitP ((rowPairs w filtered).reverse.drop
          (anchorSkip ((rowPairs w filtered).reverse.map Prod.snd) offset)) H).map
        Prod.fst).reverse := by
  cases filtered with
  | nil => simp [selectWindow, rowPairs, takeFitP, List.drop_nil]
  | cons x xs => rfl

/-- Claim C1. For every display state (hence every buffer contents and filter
state), viewport width at least 1 and viewport height at least 1, the
window returned by `get_filtered_lines_by_visual` satisfies: the sum of
the per-record visual row counts is at most the viewport height; the
window is a contiguous run ending at the anchor entry (records are never
partially shown — the first record that would overflow is excluded
entirely, along with everything older); and the run is maximal among
contiguous runs from the anchor whose rows fit.  Moreover in the
concrete scenario — viewport height 10, three filtered records of 4
visual rows each at width 40, offset 0 — exactly the last two records
are returned. -/
theorem no_overflow_window :
    (∀ (st : LogDisplay) (H w : Nat), 1 ≤ H → 1 ≤ w →
        sumRows w (get_filtered_lines_by_visual st H w) ≤ H
      ∧ (get_filtered_lines_by_visual st H w).reverse <+: anchoredRev st w
      ∧ (∀ q : List LogLine, q <+: anchoredRev st w → sumRows w q ≤ H →
          q.length ≤ (get_filtered_lines_by_visual st H w).length))
  ∧ get_filtered_lines_by_visual scenD 10 40 = [recD2, recD3] := by
  constructor
  · intro st H w hH hw
    have hgf : get_filtered_lines_by_visual st H w =
        ((takeFitP ((rowPairs w (getViewSeq st)).reverse.drop
            (anchorSkip ((rowPairs w (getViewSeq st)).reverse.map Prod.snd)
              st.scroll_offset)) H).map Prod.fst).reverse :=
      selectWindow_eq (getViewSeq st) st.scroll_offset H w
    set ps := (rowPairs w (getViewSeq st)).reverse.drop
      (anchorSkip ((rowPairs w (getViewSeq st)).reverse.map Prod.snd)
        st.scroll_offset) with hps
    have hmem : ∀ p ∈ ps, p.2 = calcVisualLines p.1 w 5 := by
      intro p hp
      exact rowPairs_mem w (getViewSeq st) p
        (List.mem_reverse.mp (List.mem_of_mem_drop hp))
    have hanch : anchoredRev st w = ps.map Prod.fst := rfl
    refine ⟨?_, ?_, ?_⟩
    · rw [hgf]
      have h1 : sumRows w (((takeFitP ps H).map Prod.fst).reverse)
          = sumRows w ((takeFitP ps H).map Prod.fst) := by
        simp [sumRows, List.map_reverse, List.sum_reverse]
      rw [h1, sumRows_map_fst w _
        (fun p hp => hmem p ((takeFitP_pre ps H).sublist.subset hp))]
      exact takeFitP_sumSnd ps H
    · rw [hgf, List.reverse_reverse, hanch]
      exact map_pre _ (takeFitP_pre ps H)
    · intro q hq hsum
      rw [hanch] at hq
      obtain ⟨ts, hts, rfl⟩ := pre_of_map_fst ps q hq
      have hsum2 : sumSnd ts ≤ H := by
        rw [← sumRows_map_fst w ts (fun p hp => hmem p (hts.sublist.subset hp))]
        exact hsum
      have hlen := takeFitP_max ps ts H hts hsum2
      rw [hgf]
      simp only [List.length_reverse, List.length_map]
      simpa using hlen
  · decide

/-- Witness for C1: the row-sum bound instantiated at the scenario D
state, height 10, width 40. -/
theorem no_overflow_window_witness :
    sumRows 40 (get_filtered_lines_by_visual scenD 10 40) ≤ 10 :=
  (no_overflow_window.1 scenD 10 40 (by decide) (by decide)).1

/-! ## Scenario C: 500-character message (claim C5) -/

/-- Claim C5, counterexample.  For a record whose message is exactly 500
characters with viewport width 100 (so the cap is 100 * 5 = 500),
`calcVisualLines` returns 5 as claimed, but the message produced by the
rendering pass is the unmodified 500-character message and does not end
with a truncation marker: truncation and the trailing ellipsis occur
only when the message strictly exceeds the cap. -/
theorem scenario_c_counterexample :
    calcVisualLines recC500 100 5 = 5
  ∧ (('.' :: '.' :: '.' :: []).isSuffixOf (renderMsg recC500 100).data) = false
  ∧ renderMsg recC500 100 = recC500.message := by
  exact ⟨by decide, by decide, by decide⟩

/-- Claim C5, amended.  With viewport width 100 and a cap of 5 rows,
`calcVisualLines` returns 5 for a 500-character message, but the
rendered message is the full message with no truncation marker; the
marker appears once the message exceeds 500 characters: for a
501-character message `calcVisualLines` still returns 5 and the rendered
message does end with the trailing ellipsis. -/
theorem scenario_c_amended :
    calcVisualLines recC500 100 5 = 5
  ∧ renderMsg recC500 100 = recC500.message
  ∧ calcVisualLines recC501 100 5 = 5
  ∧ (('.' :: '.' :: '.' :: []).isSuffixOf (renderMsg recC501 100).data) = true := by
  exact ⟨by decide, by decide, by decide, by decide⟩

/-! ## Cache staleness on mutation (claim C7) -/

/-- Under the cache invariant, a view read observes exactly the filtered
view of the current buffer. -/
theorem getViewSeq_cacheOK (st : LogDisplay) (hc : CacheOK st) :
    getViewSeq st = rebuildFilter st.filters st.lines := by
  unfold getViewSeq
  by_cases hv : st.cache_valid
  · simp [hv, hc hv]
  · simp [hv]

/-- Claim C7. In sequential execution, a view read through the cached path
performed immediately after an `add_line`, a `clear`, or a filter change
returns exactly the record sequence obtained by recomputing the three
filter predicates directly over the post-mutation buffer — never a
value derived from the pre-mutation buffer or filter state.  The
hypothesis `CacheOK` is the reachable-state invariant that a valid cache
holds the current filtered view. -/
theorem read_reflects_mutation (st : LogDisplay) (op : DisplayOp) (hc : CacheOK st)
    (hop : (∃ r, op = DisplayOp.addRec r) ∨ op = DisplayOp.clearOp ∨
           (∃ lv, op = DisplayOp.setLevel lv) ∨ (∃ s, op = DisplayOp.setSource s))
    (H w : Nat) :
    get_filtered_lines_by_visual (applyOp op st) H w
      = selectWindow (rebuildFilter (applyOp op st).filters (applyOp op st).lines)
          (applyOp op st).scroll_offset H w
  ∧ get_total_visual_lines (applyOp op st) w
      = sumRows w (rebuildFilter (applyOp op st).filters (applyOp op st).lines) := by
  have hview : getViewSeq (applyOp op st)
      = rebuildFilter (applyOp op st).filters (applyOp op st).lines := by
    rcases hop with ⟨r, rfl⟩ | rfl | ⟨lv, rfl⟩ | ⟨s, rfl⟩
    · by_cases hp : st.paused
      · have he : applyOp (DisplayOp.addRec r) st = st := by
          simp [applyOp, add_line, hp]
        rw [he]
        exact getViewSeq_cacheOK st hc
      · apply getViewSeq_cacheOK
        intro hv
        simp [applyOp, add_line, hp] at hv
    · apply getViewSeq_cacheOK
      intro hv
      simp [applyOp, clearAll] at hv
    · apply getViewSeq_cacheOK
      intro hv
      simp [applyOp, set_level_filter] at hv
    · apply getViewSeq_cacheOK
      intro hv
      simp [applyOp, set_source_filter] at hv
  constructor
  · unfold get_filtered_lines_by_visual
    rw [hview]
  · unfold get_total_visual_lines
    rw [hview]

/-- Witness for C7: adding a record to the scenario D state, the
windowed read recomputes from the post-mutation buffer. -/
theorem read_reflects_mutation_witness :
    get_filtered_lines_by_visual (applyOp (DisplayOp.addRec (recR 4)) scenD) 10 40
      = selectWindow
          (rebuildFilter (applyOp (DisplayOp.addRec (recR 4)) scenD).filters
            (applyOp (DisplayOp.addRec (recR 4)) scenD).lines)
          (applyOp (DisplayOp.addRec (recR 4)) scenD).scroll_offset 10 40 :=
  (read_reflects_mutation scenD (DisplayOp.addRec (recR 4)) (by decide)
    (Or.inl ⟨recR 4, rfl⟩) 10 40).1

/-! ## Pause semantics (claim C8) -/

/-- Claim C8. While pause is active every `add_line` leaves the display state
— buffer, stats, cache-valid flag, cached filtered list, scroll offset
— entirely unchanged, while the ingestion channel still drains: the
consumer removes and receives every queued record and the channel is
left empty, so the bounded channel cannot back up. -/
theorem pause_discards (st : LogDisplay) (q : List LogLine) (hp : st.paused = true) :
    (∀ r, add_line st r = st)
  ∧ (get_new_lines q).1 = q
  ∧ (get_new_lines q).2 = []
  ∧ (get_new_lines q).1.foldl add_line st = st := by
  have hadd : ∀ r, add_line st r = st := fun r => by simp [add_line, hp]
  refine ⟨hadd, rfl, rfl, ?_⟩
  have hfold : ∀ (rs : List LogLine), rs.foldl add_line st = st := by
    intro rs
    induction rs with
    | nil => rfl
    | cons r rs ih => simp only [List.foldl_cons, hadd r, ih]
  exact hfold q

/-- Witness for C8: a paused display discards an added record and the
drained channel is empty. -/
theorem pause_discards_witness :
    add_line { initDisplay 5 with paused := true } (recR 1)
      = { initDisplay 5 with paused := true }
  ∧ (get_new_lines [recR 1, recR 2]).2 = [] :=
  ⟨(pause_discards { initDisplay 5 with paused := true } [recR 1, recR 2] rfl).1 (recR 1),
   (pause_discards { initDisplay 5 with paused := true } [recR 1, recR 2] rfl).2.2.1⟩

/-! ## Stats accounting (claim C9) -/

/-- Bumping a level increments exactly its own counter. -/
theorem getCount_bumpInner_same (lvl : String) :
    ∀ inner, getCount lvl (bumpInner lvl inner) = getCount lvl inner + 1 := by
  intro inner
  induction inner with
  | nil => simp [bumpInner, getCount]
  | cons p rest ih =>
    obtain ⟨k, v⟩ := p
    by_cases hk : k = lvl
    · subst hk
      simp [bumpInner, getCount]
    · simp [bumpInner, getCount, hk, ih]

/-- Bumping a level leaves every other level's counter unchanged. -/
theorem getCount_bumpInner_other (lvl lvl2 : String) (h : lvl2 ≠ lvl) :
    ∀ inner, getCount lvl2 (bumpInner lvl inner) = getCount lvl2 inner := by
  intro inner
  induction inner with
  | nil => simp [bumpInner, getCount, Ne.symm h]
  | cons p rest ih =>
    obtain ⟨k, v⟩ := p
    by_cases hk : k = lvl
    · subst hk
      simp [bumpInner, getCount, Ne.symm h]
    · by_cases hk2 : k = lvl2
      · subst hk2
        simp [bumpInner, getCount, hk]
      · simp [bumpInner, getCount, hk, hk2, ih]

/-- Bumping a source and level increments exactly that cell. -/
theorem statsGet_bumpStats_same (src lvl : String) :
    ∀ m, statsGet src lvl (bumpStats src lvl m) = statsGet src lvl m + 1 := by
  intro m
  induction m with
  | nil => simp [bumpStats, statsGet, getCount]
  | cons p rest ih =>
    obtain ⟨k, inner⟩ := p
    by_cases hk : k = src
    · subst hk
      simp [bumpStats, statsGet, getCount_bumpInner_same lvl inner]
    · simp [bumpStats, statsGet, hk, ih]

/-- Bumping a cell leaves every other cell unchanged. -/
theorem statsGet_bumpStats_other (src lvl src2 lvl2 : String)
    (h : src2 ≠ src ∨ lvl2 ≠ lvl) :
    ∀ m, statsGet src2 lvl2 (bumpStats src lvl m) = statsGet src2 lvl2 m := by
  intro m
  induction m with
  | nil =>
    rcases h with h | h
    · simp [bumpStats, statsGet, Ne.symm h]
    · by_cases hs : src = src2
      · simp [bumpStats, statsGet, hs, getCount, Ne.symm h]
      · simp [bumpStats, statsGet, hs]
  | cons p rest ih =>
    obtain ⟨k, inner⟩ := p
    by_cases hk : k = src
    · subst hk
      rcases h with h2 | h2
      · simp [bumpStats, statsGet, Ne.symm h2]
      · by_cases hs2 : k = src2
        · subst hs2
          simp [bumpStats, statsGet, getCount_bumpInner_other lvl lvl2 h2 inner]
        · simp [bumpStats, statsGet, hs2]
    · by_cases hs2 : k = src2
      · subst hs2
        simp [bumpStats, statsGet, hk]
      · simp [bumpStats, statsGet, hk, hs2, ih]

/-- No cell ever decreases under a bump. -/
theorem statsGet_bumpStats_le (src lvl src2 lvl2 : String)
    (m : List (String × List (String × Nat))) :
    statsGet src2 lvl2 m ≤ statsGet src2 lvl2 (bumpStats src lvl m) := by
  by_cases hs : src2 = src
  · by_cases hl : lvl2 = lvl
    · subst hs
      subst hl
      rw [statsGet_bumpStats_same]
      omega
    · rw [statsGet_bumpStats_other src lvl src2 lvl2 (Or.inr hl)]
  · rw [statsGet_bumpStats_other src lvl src2 lvl2 (Or.inl hs)]

/-- Claim C9. Every accepted add increments `stats[source][upper level]` by
exactly 1 and changes no other cell; no display operation other than
`clear` ever decreases any counter; and eviction does not touch stats:
with capacity 3 and records R1..R5 added in order, the buffer holds
exactly R3, R4, R5 while the stats total is 5. -/
theorem stats_accounting :
    (∀ (st : LogDisplay) (r : LogLine), st.paused = false →
        statsGet r.source (upperStr r.level) (add_line st r).stats
          = statsGet r.source (upperStr r.level) st.stats + 1
      ∧ (∀ s l, s ≠ r.source ∨ l ≠ upperStr r.level →
          statsGet s l (add_line st r).stats = statsGet s l st.stats))
  ∧ (∀ (op : DisplayOp) (st : LogDisplay) (s l : String), op ≠ DisplayOp.clearOp →
      statsGet s l st.stats ≤ statsGet s l (applyOp op st).stats)
  ∧ scenA.lines = [recR 3, recR 4, recR 5]
  ∧ statsTotal scenA.stats = 5 := by
  refine ⟨?_, ?_, by decide, by decide⟩
  · intro st r hp
    have hst : (add_line st r).stats
        = bumpStats r.source (upperStr r.level) st.stats := by
      simp [add_line, hp]
    rw [hst]
    exact ⟨statsGet_bumpStats_same r.source (upperStr r.level) st.stats,
      fun s l h => statsGet_bumpStats_other r.source (upperStr r.level) s l h st.stats⟩
  · intro op st s l hop
    cases op with
    | addRec r =>
      by_cases hp : st.paused
      · simp [applyOp, add_line, hp]
      · have hst : (applyOp (DisplayOp.addRec r) st).stats
            = bumpStats r.source (upperStr r.level) st.stats := by
          simp [applyOp, add_line, hp]
        rw [hst]
        exact statsGet_bumpStats_le r.source (upperStr r.level) s l st.stats
    | clearOp => exact absurd rfl hop
    | setLevel lv => simp [applyOp, set_level_filter]
    | setSource s2 => simp [applyOp, set_source_filter]
    | scrollUpBy n => simp [applyOp, scroll_up]
    | scrollDownBy n => simp [applyOp, scroll_down]
    | toBottom => simp [applyOp, scroll_to_bottom]
    | togglePauseOp => simp [applyOp, toggle_pause]

/-- Witness for C9: one accepted add from the empty display increments
the record's cell from 0 to 1. -/
theorem stats_accounting_witness :
    statsGet (recR 1).source (upperStr (recR 1).level)
        (add_line (initDisplay 3) (recR 1)).stats
      = statsGet (recR 1).source (upperStr (recR 1).level) (initDisplay 3).stats + 1 :=
  (stats_accounting.1 (initDisplay 3) (recR 1) rfl).1

/-! ## Lost invalidation during an in-flight rebuild (claim C10) -/

/-- Claim C10.  The code violates this claim: model the rebuild as its two
steps — the unlocked snapshot (line 99 of src/ui.py) and the locked
commit (lines 113-115) — and interleave an `add_line` between them.
The commit marks the cache valid unconditionally without consulting the
version counter (which the invalidation did increment), so afterwards
the cache is marked valid while its contents predate the invalidation:
a reader then observes a "valid" cache that is not the filtered view of
the current buffer, exactly what the claim forbids. -/
theorem lost_invalidation_bug :
    (rebuildCommit (add_line st10 recY) (rebuildSnapshot st10)).cache_valid = true
  ∧ (add_line st10 recY).cache_version = st10.cache_version + 1
  ∧ (rebuildCommit (add_line st10 recY) (rebuildSnapshot st10)).cache_version
      = (add_line st10 recY).cache_version
  ∧ (rebuildCommit (add_line st10 recY) (rebuildSnapshot st10)).cached_filtered
      ≠ rebuildFilter (rebuildCommit (add_line st10 recY) (rebuildSnapshot st10)).filters
          (rebuildCommit (add_line st10 recY) (rebuildSnapshot st10)).lines
  ∧ getViewSeq (rebuildCommit (add_line st10 recY) (rebuildSnapshot st10))
      ≠ rebuildFilter (rebuildCommit (add_line st10 recY) (rebuildSnapshot st10)).filters
          (rebuildCommit (add_line st10 recY) (rebuildSnapshot st10)).lines := by
  exact ⟨rfl, by decide, by decide, by decide, by decide⟩

end Logmon
